import Mathlib

/-!
Verification of the fuzzy relevance-matching and search-variation core of the
motorcycle-listing scraper.

Embedded source files:
- src/utils/relevant_match.py           (normalize_text, get_word_tokens,
                                         fuzzy_match_score, is_relevant_match,
                                         is_relevant_autotrader_match)
- src/trackers/autotraderTracker.py     (is_relevant_autotrader_match; the tracker
                                         copy is behaviourally identical to the
                                         utils copy: same gates, literal threshold
                                         0.5 = MATCH_THRESHOLDS["autotrader"])
- src/utils/search_variation_generator.py (generate_search_variations)
- src/config/config.py                  (MATCH_THRESHOLDS)

Modelling conventions:
- Python strings are modelled as `List Char` over the ASCII fragment: the regex
  class \w is modelled as alphanumeric-or-underscore, \s and str.split()
  whitespace as Char.isWhitespace, str.lower()/upper() as the ASCII
  Char.toLower/toUpper, str.isdigit() as nonempty-and-all-ASCII-digits.
- Python float arithmetic in the scorer is modelled exactly over ℚ.  The score
  constants 0.1, 0.15, 0.6, 0.4 become the exact rationals they denote; every
  comparison proved here is far from any float rounding boundary.
- `re.findall(r"\b\d{2,4}\b", t)` is applied by the source only to the output of
  normalize_text, which consists of word characters separated by single spaces.
  On such strings a match of that pattern is exactly a whitespace-delimited token
  that consists of 2 to 4 digits (a digit run bordered by a word character has no
  word boundary there, and runs of 5 or more digits admit no boundary-to-boundary
  window of length at most 4), so the model filters the tokens directly.
- Python sets of token strings are modelled as deduplicated lists; every use in
  the source is order-insensitive (membership, intersection and union
  cardinality) except one: `brand = list(search_words)[0]` in fuzzy_match_score
  reads the first element of the iteration order of a set, which Python leaves
  arbitrary (string hashing is randomized per process).  The embedding therefore
  takes the enumerated element as an explicit `brand` parameter; the only fact
  the source guarantees is `brand ∈ search_words`, and theorems quantify over or
  instantiate that parameter.
-/

abbrev Str := List Char

/-- Python `str.split()` with no arguments: split on runs of whitespace,
returning no empty fields.  Auxiliary scanner carrying the current (reversed)
token. -/
def splitWsAux : Str → Str → List Str
  | [], acc => if acc.isEmpty then [] else [acc.reverse]
  | c :: cs, acc =>
    if c.isWhitespace then
      if acc.isEmpty then splitWsAux cs [] else acc.reverse :: splitWsAux cs []
    else
      splitWsAux cs (c :: acc)

/-- Python `str.split()` (whitespace, no empties). -/
def splitWs (s : Str) : List Str := splitWsAux s []

/-- Python `" ".join(l)`. -/
def joinSpace (l : List Str) : Str := (l.intersperse [' ']).flatten

/-- Python `str.split(maxsplit=1)`: at most one split; leading whitespace and the
whitespace run after the first token are dropped, the remainder is kept verbatim.
Returns [], [token] or [token, remainder]. -/
def splitMax1 (s : Str) : List Str :=
  let rest0 := s.dropWhile (fun c => c.isWhitespace)
  if rest0.isEmpty then []
  else
    let tok := rest0.takeWhile (fun c => !c.isWhitespace)
    let rest1 := (rest0.dropWhile (fun c => !c.isWhitespace)).dropWhile (fun c => c.isWhitespace)
    if rest1.isEmpty then [tok] else [tok, rest1]

/-- Membership of the regex class `\w` (ASCII model): letters, digits, underscore. -/
def isWordChar (c : Char) : Bool := c.isAlphanum || c == '_'

/-- Python `p.isdigit()` (ASCII model): nonempty and all digits. -/
def isdigitStr (w : Str) : Bool := !w.isEmpty && w.all Char.isDigit

/-- Does the second list start with the first (helper for the substring test). -/
def starts_with : Str → Str → Bool
  | [], _ => true
  | _ :: _, [] => false
  | c :: cs, d :: ds => c == d && starts_with cs ds

/-- Python `needle in hay` on strings: contiguous substring test.  The empty
needle is a substring of every string, as in Python. -/
def is_substring : Str → Str → Bool
  | p, [] => p.isEmpty
  | p, c :: cs => starts_with p (c :: cs) || is_substring p cs

/-- normalize_text from src/utils/relevant_match.py: lowercase, delete every
character that is neither a word character nor whitespace, then collapse
whitespace runs to single spaces and trim (via split + join). -/
def normalize_text (t : Str) : Str :=
  let lowered := t.map Char.toLower
  let kept := lowered.filter (fun c => isWordChar c || c.isWhitespace)
  joinSpace (splitWs kept)

/-- get_word_tokens from src/utils/relevant_match.py: the set of
whitespace-separated tokens of the normalized text whose length exceeds 1,
modelled as a deduplicated list. -/
def get_word_tokens (t : Str) : List Str :=
  ((splitWs (normalize_text t)).filter (fun w => decide (1 < w.length))).dedup

/-- The set of standalone 2-to-4-digit numbers of a normalized string, that is,
the matches of the boundary-anchored digit regex of fuzzy_match_score: on
normalize_text output this is exactly the set of whitespace tokens that consist
of 2 to 4 digits (see the header note). -/
def boundary_numbers (t : Str) : List Str :=
  ((splitWs t).filter
    (fun w => decide (2 ≤ w.length) && decide (w.length ≤ 4) && w.all Char.isDigit)).dedup

/-- Maximal run of ASCII digits scanner for re.findall(r"\d+", t): auxiliary,
carrying the current (reversed) run. -/
def digitRunsAux : Str → Str → List Str
  | [], acc => if acc.isEmpty then [] else [acc.reverse]
  | c :: cs, acc =>
    if c.isDigit then digitRunsAux cs (c :: acc)
    else if acc.isEmpty then digitRunsAux cs [] else acc.reverse :: digitRunsAux cs []

/-- The set of maximal digit runs of a raw string, `set(re.findall(r"\d+", t))`,
modelled as a deduplicated list. -/
def digit_runs (t : Str) : List Str := (digitRunsAux t []).dedup

/-- Length of the common run of equal characters at the heads of two lists
(used to measure a candidate matching block of difflib.SequenceMatcher). -/
def run_len : Str → Str → Nat
  | c :: cs, d :: ds => if c == d then run_len cs ds + 1 else 0
  | _, _ => 0

/-- difflib.SequenceMatcher.find_longest_match on full ranges, no junk (the
autojunk heuristic is inert below 200 characters, which covers every use in the
source): the longest common contiguous block, ties resolved to the earliest
start in the first string and then in the second, returned as
(start in a, start in b, length).  Scanning i ascending then j ascending with a
strictly-greater update implements exactly that tie-breaking. -/
def find_longest_match (a b : Str) : Nat × Nat × Nat :=
  (List.range a.length).foldl
    (fun best i =>
      (List.range b.length).foldl
        (fun best2 j =>
          let k := run_len (a.drop i) (b.drop j)
          if best2.2.2 < k then (i, j, k) else best2)
        best)
    (0, 0, 0)

/-- Total number of matched characters of difflib.SequenceMatcher
(sum of the sizes of get_matching_blocks): recursively take the longest match
and recurse on the pieces to its left and to its right.  The first argument is
fuel; each recursive call strictly decreases the combined length, so fuel
equal to the combined length plus one is always sufficient. -/
def matching_total : Nat → Str → Str → Nat
  | 0, _, _ => 0
  | Nat.succ fuel, a, b =>
    let m := find_longest_match a b
    if m.2.2 = 0 then 0
    else
      matching_total fuel (a.take m.1) (b.take m.2.1) + m.2.2 +
        matching_total fuel (a.drop (m.1 + m.2.2)) (b.drop (m.2.1 + m.2.2))

/-- difflib.SequenceMatcher(None, a, b).ratio(): 2*M/T where M is the total
matched length and T the combined length; 1.0 when both strings are empty. -/
def sequence_similarity (a b : Str) : Rat :=
  let total := a.length + b.length
  if total = 0 then 1
  else mkRat (2 * matching_total (total + 1) a b) total

/-- Exact rational multiplication, written through mkRat so that the kernel can
evaluate it (the library multiplication is irreducible); rat_mul_eq below shows
it is the multiplication of ℚ.  Used to model Python float multiplication
exactly. -/
def rat_mul (a b : Rat) : Rat := mkRat (a.num * b.num) (a.den * b.den)

/-- Exact rational addition through mkRat; rat_add_eq below shows it is the
addition of ℚ.  Used to model Python float addition exactly. -/
def rat_add (a b : Rat) : Rat := mkRat (a.num * b.den + b.num * a.den) (a.den * b.den)

/-- rat_mul is multiplication on ℚ. -/
theorem rat_mul_eq (a b : Rat) : rat_mul a b = a * b := by
  rw [rat_mul, Rat.mul_def, Rat.normalize_eq_mkRat]

/-- rat_add is addition on ℚ. -/
theorem rat_add_eq (a b : Rat) : rat_add a b = a + b := (Rat.add_def' a b).symm

/-- MATCH_THRESHOLDS["gumtree"] from src/config/config.py: 0.40. -/
def MATCH_THRESHOLDS_gumtree : Rat := mkRat 40 100

/-- MATCH_THRESHOLDS["autotrader"] from src/config/config.py: 0.50 (also the
literal 0.5 of src/trackers/autotraderTracker.py). -/
def MATCH_THRESHOLDS_autotrader : Rat := mkRat 50 100

/-- MATCH_THRESHOLDS["webuycars"] from src/config/config.py: 0.4575. -/
def MATCH_THRESHOLDS_webuycars : Rat := mkRat 4575 10000

/-- fuzzy_match_score from src/utils/relevant_match.py.  The `brand` parameter
is the element that `list(search_words)[0]` enumerates first from the Python
set `search_words`; set order is arbitrary, so the source only guarantees
`brand ∈ get_word_tokens search_term` (see the header note).  The branch
constants 1.0, 0.0, 0.1, 0.15 and the weights 0.6, 0.4 are the exact rationals
of the source literals. -/
def fuzzy_match_score (search_term listing_title : Str) (brand : Str) : Rat :=
  let search_norm := normalize_text search_term
  let title_norm := normalize_text listing_title
  if is_substring search_norm title_norm || is_substring title_norm search_norm then 1
  else
    let search_words := get_word_tokens search_term
    let title_words := get_word_tokens listing_title
    if search_words.isEmpty then 0
    else if brand.isEmpty || !(title_words.contains brand) then mkRat 1 10
    else
      let search_numbers := boundary_numbers search_norm
      let title_numbers := boundary_numbers title_norm
      if !search_numbers.isEmpty && !(search_numbers.any (fun n => title_numbers.contains n)) then
        mkRat 15 100
      else
        let inter := search_words.filter (fun w => title_words.contains w)
        let union := search_words ++ title_words.filter (fun w => !(search_words.contains w))
        let jaccard : Rat := if union.isEmpty then 0 else mkRat inter.length union.length
        let seq := sequence_similarity search_norm title_norm
        rat_add (rat_mul jaccard (mkRat 6 10)) (rat_mul seq (mkRat 4 10))

/-- is_relevant_match from src/utils/relevant_match.py: score at least the
given threshold (default argument 0.435 is supplied by callers explicitly).
Carries the same set-enumeration parameter as fuzzy_match_score. -/
def is_relevant_match (search_term listing_title : Str) (brand : Str) (min_match_ratio : Rat) : Bool :=
  decide (min_match_ratio ≤ fuzzy_match_score search_term listing_title brand)

/-- is_relevant_autotrader_match from src/utils/relevant_match.py and (an
identical copy up to the guard noted below) src/trackers/autotraderTracker.py.
Arguments in source order: (listing_title, search_term).  A search term without
a model portion is allowed through; a model containing a wholly numeric token
(after deleting commas and periods) must share a maximal digit run with the raw
title; finally at least half of the model words must occur as substrings of the
lowercased title.  The utils copy guards the ratio with `if model_words` and
the tracker copy does not; the guard is unreachable because the remainder
returned by split(maxsplit=1) always contains a non-whitespace character. -/
def is_relevant_autotrader_match (listing_title search_term : Str) : Bool :=
  match splitMax1 search_term with
  | [_, rest] =>
    let model := rest.map Char.toLower
    let title_lower := listing_title.map Char.toLower
    let model_words := splitWs model
    let has_number := model_words.any
      (fun w => isdigitStr (w.filter (fun c => !(c == ',') && !(c == '.'))))
    let search_numbers := digit_runs model
    let title_numbers := digit_runs listing_title
    if has_number && !search_numbers.isEmpty
        && !(search_numbers.any (fun n => title_numbers.contains n)) then
      false
    else
      let matching_words := (model_words.filter (fun w => is_substring w title_lower)).length
      let match_ratio : Rat :=
        if model_words.isEmpty then 1 else mkRat matching_words model_words.length
      decide (MATCH_THRESHOLDS_autotrader ≤ match_ratio)
  | _ => true

/-- The uppercased filler suffixes of variation rule 4 of
src/utils/search_variation_generator.py. -/
def FILLER_SUFFIXES : List Str :=
  ["SX".toList, "GS".toList, "X".toList, "SE".toList, "ABS".toList]

/-- Order-preserving case-insensitive deduplication of
src/utils/search_variation_generator.py (the seen-set holds lowercased forms;
the first occurrence wins). -/
def dedup_ci (seen : List Str) : List Str → List Str
  | [] => []
  | v :: vs =>
    if seen.contains (v.map Char.toLower) then dedup_ci seen vs
    else v :: dedup_ci (v.map Char.toLower :: seen) vs

/-- generate_search_variations from src/utils/search_variation_generator.py.
The variation list starts with the original term; each rule appends
`brand ++ " " ++ transformed-model` under the source conditions; finally the
list is deduplicated case-insensitively preserving order. -/
def generate_search_variations (search_term : Str) : List Str :=
  let parts := splitWs search_term
  if parts.length < 2 then [search_term]
  else
    let brand := parts.headD []
    let model_parts := parts.tail
    let model_str := joinSpace model_parts
    let no_hyphens := model_str.filter (fun c => !(c == '-'))
    let v1 := if no_hyphens ≠ model_str then [brand ++ ' ' :: no_hyphens] else []
    let v2 := if 1 < model_parts.length then [brand ++ ' ' :: model_parts.headD []] else []
    let v3 :=
      match model_parts.find? (fun p => p.any Char.isDigit) with
      | some p => [brand ++ ' ' :: p]
      | none => []
    let trimmed :=
      joinSpace (model_parts.filter (fun p => !(FILLER_SUFFIXES.contains (p.map Char.toUpper))))
    let v4 := if trimmed ≠ [] ∧ trimmed ≠ model_str then [brand ++ ' ' :: trimmed] else []
    let v5 :=
      if 2 ≤ model_parts.length ∧ model_parts.any (fun p => isdigitStr p) then
        let combined := model_parts.flatten
        if combined ≠ model_str then [brand ++ ' ' :: combined] else []
      else []
    dedup_ci [] (search_term :: (v1 ++ v2 ++ v3 ++ v4 ++ v5))

/-- Unfolding equation of dedup_ci on a cons cell. -/
theorem dedup_ci_cons (seen : List Str) (v : Str) (vs : List Str) :
    dedup_ci seen (v :: vs) =
      if seen.contains (v.map Char.toLower) then dedup_ci seen vs
      else v :: dedup_ci (v.map Char.toLower :: seen) vs := rfl

/-- Every word token has length greater than 1 (the tokenizer filters on it). -/
theorem mem_get_word_tokens_length {w t : Str} (h : w ∈ get_word_tokens t) :
    1 < w.length := by
  unfold get_word_tokens at h
  rw [List.mem_dedup, List.mem_filter] at h
  simpa using h.2

/-- The empty string is a substring of every string, as in Python. -/
theorem is_substring_nil_left (s : Str) : is_substring [] s = true := by
  cases s <;> simp [is_substring, starts_with]

/-- C7: if the normalized form of either string is a substring of the normalized
form of the other, fuzzy_match_score returns exactly 1.0, for every possible
set-enumeration choice of the brand element.  Confirmed. -/
theorem claim7_thm (a b brand : Str)
    (h : is_substring (normalize_text a) (normalize_text b) = true ∨
         is_substring (normalize_text b) (normalize_text a) = true) :
    fuzzy_match_score a b brand = 1 := by
  unfold fuzzy_match_score
  rcases h with h | h <;> simp [h]

/-- Witness for C7: the normalized search term "ninja" is a substring of the
normalized title "kawasaki ninja 400", and the score is 1.0. -/
theorem claim7_witness :
    is_substring (normalize_text ("Ninja".toList)) (normalize_text ("Kawasaki Ninja 400".toList)) = true ∧
    fuzzy_match_score ("Ninja".toList) ("Kawasaki Ninja 400".toList) [] = 1 :=
  ⟨by decide, claim7_thm ("Ninja".toList) ("Kawasaki Ninja 400".toList) [] (Or.inl (by decide))⟩

/-- Counterexample to C4 as stated: on the empty search term the scorer returns
1.0 (the empty normalized string is a substring of every title, so the substring
branch fires), not 0.0 as the claim asserts. -/
theorem claim4_counterexample :
    fuzzy_match_score [] ("Honda".toList) [] = 1 ∧
    fuzzy_match_score [] ("Honda".toList) [] ≠ 0 := by
  constructor
  · decide
  · decide

/-- C4 amended: a search term that normalizes to the empty string scores 1.0
(via the substring rule), for every title and every brand choice; 0.0 is only
reached when the normalized search term is nonempty, neither normalized string
contains the other, and the filtered token set is empty. -/
theorem claim4_amended_thm (a b brand : Str) (h : normalize_text a = []) :
    fuzzy_match_score a b brand = 1 := by
  unfold fuzzy_match_score
  rw [h]
  simp [is_substring_nil_left]

/-- Witness for C4 amended: a punctuation-and-whitespace search term normalizes
to the empty string and scores 1.0. -/
theorem claim4_witness :
    normalize_text (" .,!".toList) = [] ∧
    fuzzy_match_score (" .,!".toList) ("Kawasaki".toList) [] = 1 :=
  ⟨by decide, claim4_amended_thm (" .,!".toList) ("Kawasaki".toList) [] (by decide)⟩

/-- C6: whenever the enumerated brand element passes the brand gate, neither
normalized string contains the other, and the normalized search term has
standalone 2-to-4-digit numbers none of which occurs among those of the title, the
scorer returns exactly 0.15.  Confirmed. -/
theorem claim6_thm (a b brand : Str)
    (hmem : brand ∈ get_word_tokens a)
    (hgate : (get_word_tokens b).contains brand = true)
    (hs1 : is_substring (normalize_text a) (normalize_text b) = false)
    (hs2 : is_substring (normalize_text b) (normalize_text a) = false)
    (hnum : (boundary_numbers (normalize_text a)).isEmpty = false)
    (hdisj : (boundary_numbers (normalize_text a)).any
        (fun n => (boundary_numbers (normalize_text b)).contains n) = false) :
    fuzzy_match_score a b brand = mkRat 15 100 := by
  have hne : get_word_tokens a ≠ [] := List.ne_nil_of_mem hmem
  have h0 : (get_word_tokens a).isEmpty = false := by
    cases h : get_word_tokens a with
    | nil => exact absurd h hne
    | cons x xs => rfl
  have hlen : 1 < brand.length := mem_get_word_tokens_length hmem
  have hbe : brand.isEmpty = false := by
    cases brand with
    | nil => simp at hlen
    | cons c cs => rfl
  have hgate2 : brand ∈ get_word_tokens b := by simpa using hgate
  have hdisj2 : ∀ x ∈ boundary_numbers (normalize_text a), x ∉ boundary_numbers (normalize_text b) := by
    simpa using hdisj
  unfold fuzzy_match_score
  simp [hs1, hs2, h0, hbe, hnum, hgate2, hdisj2]
  intro x hx hxb
  exact absurd hxb (hdisj2 x hx)

/-- Witness for C6: search "Kawasaki Ninja 400" against title
"Kawasaki Ninja 250" with brand element "kawasaki": numbers 400 and 250 are
disjoint, so the score is exactly 0.15. -/
theorem claim6_witness :
    ("kawasaki".toList ∈ get_word_tokens ("Kawasaki Ninja 400".toList)) ∧
    fuzzy_match_score ("Kawasaki Ninja 400".toList) ("Kawasaki Ninja 250".toList) ("kawasaki".toList) = mkRat 15 100 :=
  ⟨by decide,
    claim6_thm ("Kawasaki Ninja 400".toList) ("Kawasaki Ninja 250".toList) ("kawasaki".toList)
      (by decide) (by decide) (by decide) (by decide) (by decide) (by decide)⟩

/-- C8: the variation list always starts with the unmodified original term (and
in particular is non-empty); the case-insensitive deduplication keeps the first
occurrence, so it never removes or displaces that first element.  Confirmed. -/
theorem claim8_thm (s : Str) :
    (generate_search_variations s).head? = some s ∧ generate_search_variations s ≠ [] := by
  have hh : (generate_search_variations s).head? = some s := by
    simp only [generate_search_variations]
    by_cases h : (splitWs s).length < 2
    · simp [h]
    · simp only [h, if_false]
      rw [dedup_ci_cons]
      have hc : ([] : List Str).contains (s.map Char.toLower) = false := rfl
      rw [hc]
      rfl
  refine ⟨hh, ?_⟩
  intro hnil
  rw [hnil] at hh
  simp at hh

/-- Every element surviving dedup_ci was already in the input list. -/
theorem mem_of_mem_dedup_ci {v : Str} :
    ∀ (seen : List Str) (l : List Str), v ∈ dedup_ci seen l → v ∈ l := by
  intro seen l
  induction l generalizing seen with
  | nil => intro h; simp [dedup_ci] at h
  | cons x xs ih =>
    intro h
    rw [dedup_ci_cons] at h
    by_cases hc : seen.contains (x.map Char.toLower) = true
    · rw [if_pos hc] at h
      exact List.mem_cons_of_mem _ (ih _ h)
    · rw [if_neg hc] at h
      rcases List.mem_cons.mp h with h | h
      · exact h ▸ List.mem_cons_self _ _
      · exact List.mem_cons_of_mem _ (ih _ h)

/-- Counterexample to C9 as stated: for the search term "Honda -" the
hyphen-removal rule produces the variation "Honda " whose model portion is the
empty string, so not every non-original variation carries a non-empty model. -/
theorem claim9_counterexample :
    generate_search_variations ("Honda -".toList) = ["Honda -".toList, "Honda ".toList] := by
  decide

/-- C9 amended: for a search term with at least two whitespace-separated tokens,
every generated variation either equals the original term or consists of the
original first token (the brand), a single space, and a possibly empty model
string (the hyphen-removal rule can leave the model empty when the model
portion consists entirely of hyphens); no variation drops or alters the brand
token. -/
theorem claim9_amended_thm (s v : Str) (h2 : 2 ≤ (splitWs s).length)
    (hv : v ∈ generate_search_variations s) :
    v = s ∨ ∃ m : Str, v = (splitWs s).headD [] ++ ' ' :: m := by
  have hnlt : ¬ (splitWs s).length < 2 := not_lt.mpr h2
  simp only [generate_search_variations, hnlt, if_false] at hv
  have hv2 := mem_of_mem_dedup_ci _ _ hv
  rcases List.mem_cons.mp hv2 with h | h
  · exact Or.inl h
  · right
    simp only [List.mem_append] at h
    rcases h with ((((h | h) | h) | h) | h)
    · split at h
      · rw [List.mem_singleton] at h
        exact ⟨_, h⟩
      · simp at h
    · split at h
      · rw [List.mem_singleton] at h
        exact ⟨_, h⟩
      · simp at h
    · split at h
      · rw [List.mem_singleton] at h
        exact ⟨_, h⟩
      · simp at h
    · split at h
      · rw [List.mem_singleton] at h
        exact ⟨_, h⟩
      · simp at h
    · split at h
      · split at h
        · rw [List.mem_singleton] at h
          exact ⟨_, h⟩
        · simp at h
      · simp at h

/-- Witness for C9 amended: "BMW G310" is a generated variation of "BMW G 310"
and indeed consists of the brand "BMW", a space, and the model "G310". -/
theorem claim9_witness :
    2 ≤ (splitWs ("BMW G 310".toList)).length ∧
    "BMW G310".toList ∈ generate_search_variations ("BMW G 310".toList) ∧
    ("BMW G310".toList = "BMW G 310".toList ∨
      ∃ m : Str, "BMW G310".toList = (splitWs ("BMW G 310".toList)).headD [] ++ ' ' :: m) :=
  ⟨by decide, by decide,
    claim9_amended_thm ("BMW G 310".toList) ("BMW G310".toList) (by decide) (by decide)⟩

/-- Characters of a token produced by the whitespace splitter come from the
scanned string or from the accumulator. -/
theorem mem_splitWsAux_chars {c : Char} {w : Str} :
    ∀ (s acc : Str), w ∈ splitWsAux s acc → c ∈ w → c ∈ s ∨ c ∈ acc := by
  intro s
  induction s with
  | nil =>
    intro acc hw hc
    unfold splitWsAux at hw
    split at hw
    · simp at hw
    · rw [List.mem_singleton] at hw
      subst hw
      exact Or.inr (by simpa using hc)
  | cons d ds ih =>
    intro acc hw hc
    unfold splitWsAux at hw
    split at hw
    · split at hw
      · rcases ih [] hw hc with h | h
        · exact Or.inl (List.mem_cons_of_mem _ h)
        · simp at h
      · rcases List.mem_cons.mp hw with h | h
        · subst h
          exact Or.inr (by simpa using hc)
        · rcases ih [] h hc with h2 | h2
          · exact Or.inl (List.mem_cons_of_mem _ h2)
          · simp at h2
    · rcases ih (d :: acc) hw hc with h | h
      · exact Or.inl (List.mem_cons_of_mem _ h)
      · rcases List.mem_cons.mp h with h2 | h2
        · exact Or.inl (h2 ▸ List.mem_cons_self _ _)
        · exact Or.inr h2

/-- Characters of a whitespace-split token come from the split string. -/
theorem mem_splitWs_chars {c : Char} {w s : Str} (hw : w ∈ splitWs s) (hc : c ∈ w) :
    c ∈ s := by
  rcases mem_splitWsAux_chars s [] hw hc with h | h
  · exact h
  · simp at h

/-- The digit-run scanner with a non-empty accumulator never returns the empty
list. -/
theorem digitRunsAux_acc_ne_nil : ∀ (s acc : Str), acc ≠ [] → digitRunsAux s acc ≠ [] := by
  intro s
  induction s with
  | nil =>
    intro acc hacc
    unfold digitRunsAux
    have he : acc.isEmpty = false := by
      cases acc with
      | nil => exact absurd rfl hacc
      | cons x xs => rfl
    rw [he]
    simp
  | cons d ds ih =>
    intro acc hacc
    unfold digitRunsAux
    by_cases hd : d.isDigit = true
    · rw [if_pos hd]
      exact ih _ (by simp)
    · rw [if_neg hd]
      have he : acc.isEmpty = false := by
        cases acc with
        | nil => exact absurd rfl hacc
        | cons x xs => rfl
      rw [he]
      simp

/-- A string containing a digit character has a non-empty list of digit runs
(before deduplication). -/
theorem digitRunsAux_ne_nil_of_digit :
    ∀ (s acc : Str) (c : Char), c ∈ s → c.isDigit = true → digitRunsAux s acc ≠ [] := by
  intro s
  induction s with
  | nil =>
    intro acc c hc
    simp at hc
  | cons d ds ih =>
    intro acc c hc hd
    unfold digitRunsAux
    by_cases hdd : d.isDigit = true
    · rw [if_pos hdd]
      exact digitRunsAux_acc_ne_nil ds (d :: acc) (by simp)
    · rw [if_neg hdd]
      rcases List.mem_cons.mp hc with h | h
      · exact absurd (h ▸ hd) hdd
      · by_cases he : acc.isEmpty = true
        · rw [if_pos he]
          exact ih [] c h hd
        · rw [if_neg he]
          simp

/-- A string containing a digit character has a non-empty set of digit runs. -/
theorem digit_runs_ne_nil {s : Str} {c : Char} (hc : c ∈ s) (hd : c.isDigit = true) :
    digit_runs s ≠ [] := by
  unfold digit_runs
  intro h
  rw [List.dedup_eq_nil] at h
  exact digitRunsAux_ne_nil_of_digit s [] c hc hd h

/-- Counterexample to C3 as stated: search term "Honda CB500X Rally" has the
model token "cb500x", which contains digit characters, and title
"Honda Rally 2019" shares no maximal digit run with the model portion
("500" versus "2019"); the claim then demands a hard rejection, but the code
returns True, because its digit gate only fires for tokens that are wholly
numeric after deleting commas and periods, which "cb500x" is not, and the word
"rally" alone reaches the 50 percent overlap. -/
theorem claim3_counterexample :
    splitMax1 ("Honda CB500X Rally".toList) = ["Honda".toList, "CB500X Rally".toList] ∧
    "cb500x".toList ∈ splitWs ("cb500x rally".toList) ∧
    ("cb500x".toList).any Char.isDigit = true ∧
    ((digit_runs ("cb500x rally".toList)).any
      (fun n => (digit_runs ("Honda Rally 2019".toList)).contains n)) = false ∧
    is_relevant_autotrader_match ("Honda Rally 2019".toList) ("Honda CB500X Rally".toList) = true := by
  refine ⟨by decide, by decide, by decide, by decide, by decide⟩

/-- C3 amended: the hard number rejection holds when some model token is wholly
numeric after deleting commas and periods (rather than merely containing a
digit): if the search term splits into a brand and a model remainder, such a
token exists, and the title shares no maximal digit run with the lowercased
model portion, the brand-scoped AutoTrader check returns False regardless of
the word-overlap ratio. -/
theorem claim3_amended_thm (title search t r : Str)
    (hsplit : splitMax1 search = [t, r])
    (hnum : (splitWs (r.map Char.toLower)).any
      (fun w => isdigitStr (w.filter (fun c => !(c == ',') && !(c == '.')))) = true)
    (hdisj : ((digit_runs (r.map Char.toLower)).any
      (fun n => (digit_runs title).contains n)) = false) :
    is_relevant_autotrader_match title search = false := by
  have hne : digit_runs (r.map Char.toLower) ≠ [] := by
    rw [List.any_eq_true] at hnum
    obtain ⟨w, hw, hwd⟩ := hnum
    unfold isdigitStr at hwd
    rw [Bool.and_eq_true] at hwd
    obtain ⟨hne1, hall⟩ := hwd
    cases hf : w.filter (fun c => !(c == ',') && !(c == '.')) with
    | nil => rw [hf] at hne1; simp at hne1
    | cons c0 cs0 =>
      have hc0f : c0 ∈ w.filter (fun c => !(c == ',') && !(c == '.')) := by
        rw [hf]; exact List.mem_cons_self _ _
      have hc0w : c0 ∈ w := List.mem_of_mem_filter hc0f
      have hc0d : c0.isDigit = true := by
        rw [hf] at hall
        rw [List.all_eq_true] at hall
        exact hall c0 (List.mem_cons_self _ _)
      exact digit_runs_ne_nil (mem_splitWs_chars hw hc0w) hc0d
  have hnee : (digit_runs (r.map Char.toLower)).isEmpty = false := by
    cases h : digit_runs (r.map Char.toLower) with
    | nil => exact absurd h hne
    | cons x xs => rfl
  have hdisj2 : ∀ x ∈ digit_runs (r.map Char.toLower), x ∉ digit_runs title := by
    simpa using hdisj
  unfold is_relevant_autotrader_match
  rw [hsplit]
  simp [hnum, hnee, hdisj2]
  intro x hx hxt
  exact absurd hxt (hdisj2 x hx)

/-- Witness for C3 amended: search "Harley Street 750" against title
"Street Glide": the model token "750" is wholly numeric, the title has no digit
run at all, so the check returns False. -/
theorem claim3_witness :
    splitMax1 ("Harley Street 750".toList) = ["Harley".toList, "Street 750".toList] ∧
    (splitWs (("Street 750".toList).map Char.toLower)).any
      (fun w => isdigitStr (w.filter (fun c => !(c == ',') && !(c == '.')))) = true ∧
    ((digit_runs (("Street 750".toList).map Char.toLower)).any
      (fun n => (digit_runs ("Street Glide".toList)).contains n)) = false ∧
    is_relevant_autotrader_match ("Street Glide".toList) ("Harley Street 750".toList) = false :=
  ⟨by decide, by decide, by decide,
    claim3_amended_thm ("Street Glide".toList) ("Harley Street 750".toList)
      ("Harley".toList) ("Street 750".toList) (by decide) (by decide) (by decide)⟩

/-- Counterexample to C2 as stated: the brand-scoped AutoTrader check on title
"2021 bmw GS 310" with search term "BMW G 310" returns True, not False. -/
theorem claim2_counterexample :
    is_relevant_autotrader_match ("2021 bmw GS 310".toList) ("BMW G 310".toList) = true := by
  decide

/-- C2 amended: the check returns True on this pair, because model words are
matched by substring containment in the lowercased title: the single-letter
model token "g" occurs inside the title word "gs", and the numeral "310" is
shared, so the overlap ratio is 1.0, which is at least the 0.50 threshold. -/
theorem claim2_amended_thm :
    is_substring ("g".toList) ("2021 bmw gs 310".toList) = true ∧
    (digit_runs ("g 310".toList)).any
      (fun n => (digit_runs ("2021 bmw GS 310".toList)).contains n) = true ∧
    is_relevant_autotrader_match ("2021 bmw GS 310".toList) ("BMW G 310".toList) = true := by
  refine ⟨by decide, by decide, by decide⟩

/-- C1 evaluated on the code: for search term "Honda CB 500" and title
"Suzuki CB 250", the first whitespace token of the search term, lowercased
("honda"), does not occur among the word tokens of the title, so the claim demands
the score 0.1; but the element the code takes as brand is the head of the
arbitrary iteration order of the Python token set, and when that enumeration
yields "cb" (a legal order), the brand gate passes and the number gate returns
0.15 instead.  Only the enumeration that yields "honda" first produces 0.1. -/
theorem claim1_code_eval :
    "cb".toList ∈ get_word_tokens ("Honda CB 500".toList) ∧
    "honda".toList ∉ get_word_tokens ("Suzuki CB 250".toList) ∧
    is_substring (normalize_text ("Honda CB 500".toList)) (normalize_text ("Suzuki CB 250".toList)) = false ∧
    is_substring (normalize_text ("Suzuki CB 250".toList)) (normalize_text ("Honda CB 500".toList)) = false ∧
    fuzzy_match_score ("Honda CB 500".toList) ("Suzuki CB 250".toList) ("cb".toList) = mkRat 15 100 ∧
    fuzzy_match_score ("Honda CB 500".toList) ("Suzuki CB 250".toList) ("honda".toList) = mkRat 1 10 := by
  refine ⟨by decide, by decide, by decide, by decide, by decide, by decide⟩

set_option maxRecDepth 100000 in
/-- C5 evaluated on the code: for search "Kawasaki Ninja 400" and title
"Kawasaki KFX 400", whenever the arbitrary set enumeration yields "kawasaki"
(or "400") as the brand element, both hard gates pass and the blended score is
103/170 ≈ 0.606, so the pair is classified as relevant at the configured
gumtree threshold 0.40 — the claim (like the tuning corpus entry of the
repository that marks this pair should-not-match) demands a score strictly
below 0.40.  Only the
enumeration that yields "ninja" first gives 0.1. -/
theorem claim5_code_eval :
    "kawasaki".toList ∈ get_word_tokens ("Kawasaki Ninja 400".toList) ∧
    fuzzy_match_score ("Kawasaki Ninja 400".toList) ("Kawasaki KFX 400".toList) ("kawasaki".toList) = mkRat 103 170 ∧
    fuzzy_match_score ("Kawasaki Ninja 400".toList) ("Kawasaki KFX 400".toList) ("ninja".toList) = mkRat 1 10 ∧
    MATCH_THRESHOLDS_gumtree ≤ mkRat 103 170 ∧
    is_relevant_match ("Kawasaki Ninja 400".toList) ("Kawasaki KFX 400".toList) ("kawasaki".toList)
      MATCH_THRESHOLDS_gumtree = true := by
  refine ⟨by decide, by decide, by decide, by decide, by decide⟩
